import Mathlib

/-!
Verification of the image difference-and-change-detection engine
(`find_differences` and `analyze_changes` from `ImageComparison/ImageComp.py`).

Images and difference rasters are modelled as `List (List Nat)`: a list of
rows of single-channel intensity samples.  `numpy`'s `shape` of a 2D array is
modelled by the list of row lengths (equality of those lists is equality of
height and of every row's width).  `cv2.absdiff` on unsigned samples is the
exact absolute difference `Nat.dist` (no wraparound).
`cv2.connectedComponentsWithStats(..., connectivity=8)` is modelled by a
flood-fill labeling that treats every non-zero cell as foreground, groups
foreground cells under 8-adjacency, and discovers components in raster-scan
order (rows top-to-bottom, columns left-to-right), which is the label order
the library produces; the background gets no component (the code drops the
background row of `stats` via `stats[1:]`, here components simply never
include it).  All functions are pure, mirroring the stateless engine.
-/

namespace ImageComp

/-- The `shape` of a 2D array: the list of row lengths (height = its length,
widths = its entries).  Two rasters have equal numpy shapes iff these agree. -/
def shape (g : List (List Nat)) : List Nat :=
  g.map List.length

/-- Cell lookup at position `p = (row, col)`; out-of-range reads default to 0
(only in-range positions are ever produced by the engine). -/
def getCell (g : List (List Nat)) (p : Nat × Nat) : Nat :=
  (g.getD p.1 []).getD p.2 0

/-- One cell of the thresholded difference: `d = |a - b|`; keep `d` when it
exceeds the threshold, else 0.  This is lines 33-40 of `ImageComp.py`
(`cv2.absdiff`, the `diff > threshold` mask, and the masked copy). -/
def cellDiff (threshold a b : Nat) : Nat :=
  if threshold < Nat.dist a b then Nat.dist a b else 0

/-- The thresholded difference raster produced by `find_differences` once the
shape guard has passed. -/
def thresholded_diff (img1 img2 : List (List Nat)) (threshold : Nat) : List (List Nat) :=
  List.zipWith (List.zipWith (cellDiff threshold)) img1 img2

/-- `find_differences(img1, img2, threshold)`: raises
`ValueError("Images must have the same dimensions")` when the shapes differ,
otherwise returns the thresholded absolute-difference raster. -/
def find_differences (img1 img2 : List (List Nat)) (threshold : Nat) :
    Except String (List (List Nat)) :=
  if shape img1 ≠ shape img2 then
    Except.error "Images must have the same dimensions"
  else
    Except.ok (thresholded_diff img1 img2 threshold)

/-- 8-connectivity: two distinct cells are adjacent when both coordinates
differ by at most 1 (horizontal, vertical and diagonal neighbours). -/
def adjacent (p q : Nat × Nat) : Bool :=
  decide (Nat.dist p.1 q.1 ≤ 1) && decide (Nat.dist p.2 q.2 ≤ 1) && decide (p ≠ q)

/-- All cell positions of a raster, in raster-scan order. -/
def allCells (g : List (List Nat)) : List (Nat × Nat) :=
  (List.range g.length).flatMap fun r =>
    (List.range (g.getD r []).length).map fun c => (r, c)

/-- One expansion step of a flood fill: keep every cell (in raster order) that
is already in the set or is a foreground cell adjacent to the set. -/
def grow (fg : Nat × Nat → Bool) (cells : List (Nat × Nat)) (s : List (Nat × Nat)) :
    List (Nat × Nat) :=
  cells.filter fun p => decide (p ∈ s) || (fg p && s.any fun q => adjacent p q)

/-- The connected component of `seed`: iterate the expansion until it is
saturated (`cells.length + 1` steps always suffice, as each non-final step
adds at least one of the `cells.length` candidate cells). -/
def componentFrom (fg : Nat × Nat → Bool) (cells : List (Nat × Nat)) (seed : Nat × Nat) :
    List (Nat × Nat) :=
  (grow fg cells)^[cells.length + 1] [seed]

/-- Scan the cells in raster order; each yet-unvisited foreground cell seeds a
new component, whose cells are then marked visited.  This yields the connected
components in raster-scan discovery order, the label order of
`cv2.connectedComponentsWithStats`. -/
def componentsAux (fg : Nat × Nat → Bool) (cells : List (Nat × Nat)) :
    List (Nat × Nat) → List (Nat × Nat) → List (List (Nat × Nat))
  | [], _ => []
  | p :: todo, visited =>
    if fg p = true ∧ p ∉ visited then
      let comp := componentFrom (fun q => fg q && decide (q ∉ visited)) cells p
      comp :: componentsAux fg cells todo (visited ++ comp)
    else
      componentsAux fg cells todo visited

/-- Foreground test: a cell is foreground iff its value is non-zero (this is
how `cv2.connectedComponentsWithStats` binarizes its input). -/
def foregroundB (g : List (List Nat)) : Nat × Nat → Bool :=
  fun p => decide (getCell g p ≠ 0)

/-- The connected components of the non-zero cells of `g` under
8-connectivity, in raster-scan discovery order. -/
def components (g : List (List Nat)) : List (List (Nat × Nat)) :=
  componentsAux (foregroundB g) (allCells g) (allCells g) []

/-- The areas column `stats[1:, cv2.CC_STAT_AREA]`: the pixel count of each
component (background excluded), in label order. -/
def componentAreas (g : List (List Nat)) : List Nat :=
  (components g).map List.length

/-- Total number of foreground (non-zero) cells of a raster. -/
def foregroundCount (g : List (List Nat)) : Nat :=
  ((allCells g).filter (foregroundB g)).length

/-- One entry of `changes_info`: `{"change_id": i, "pixels": change[4]}`. -/
structure ChangeRecord where
  change_id : Nat
  pixels : Nat
  deriving DecidableEq

/-- `analyze_changes` with the area floor made explicit: keep the components
whose area is strictly greater than `minArea` (line 66:
`stat[4] > min_area`), return their count and the records numbered from 1
(line 69: `enumerate(significant_changes, 1)`). -/
def analyze_changesWith (g : List (List Nat)) (minArea : Nat) : Nat × List ChangeRecord :=
  let significant_changes := (componentAreas g).filter fun a => decide (minArea < a)
  (significant_changes.length,
    significant_changes.enum.map fun ia => ⟨ia.1 + 1, ia.2⟩)

/-- The noise floor hard-coded at line 65 of `ImageComp.py`. -/
def min_area : Nat := 50

/-- `analyze_changes(thresholded_diff)` as written in the source, with the
floor fixed at `min_area = 50`. -/
def analyze_changes (g : List (List Nat)) : Nat × List ChangeRecord :=
  analyze_changesWith g min_area

/-! ### Helper lemmas about `find_differences` -/

lemma length_eq_of_shape {g1 g2 : List (List Nat)} (h : shape g1 = shape g2) :
    g1.length = g2.length := by
  have := congrArg List.length h
  simpa [shape] using this

lemma find_differences_ok {img1 img2 : List (List Nat)} {t : Nat} {r : List (List Nat)} :
    find_differences img1 img2 t = Except.ok r ↔
      shape img1 = shape img2 ∧ r = thresholded_diff img1 img2 t := by
  by_cases hs : shape img1 = shape img2 <;>
    simp [find_differences, hs, eq_comm]

/-- The cell formula of the thresholded difference raster: for same-shaped
inputs every position (in range or not) holds
`if threshold < |a - b| then |a - b| else 0`. -/
lemma getCell_thresholded_diff {img1 img2 : List (List Nat)} (t : Nat)
    (h : shape img1 = shape img2) (p : Nat × Nat) :
    getCell (thresholded_diff img1 img2 t) p
      = cellDiff t (getCell img1 p) (getCell img2 p) := by
  obtain ⟨r, c⟩ := p
  have hlen : img1.length = img2.length := length_eq_of_shape h
  simp only [getCell, thresholded_diff, List.getD_eq_getElem?_getD]
  rw [List.getElem?_zipWith']
  cases h1 : img1[r]? with
  | none =>
    have h2 : img2[r]? = none := by
      rw [List.getElem?_eq_none_iff] at h1 ⊢
      omega
    simp [h1, h2, cellDiff]
  | some row1 =>
    have hr : r < img2.length := by
      have : r < img1.length := by
        by_contra hc
        rw [List.getElem?_eq_none_iff.mpr (Nat.le_of_not_lt hc)] at h1
        exact Option.noConfusion h1
      omega
    obtain ⟨row2, h2⟩ : ∃ row2, img2[r]? = some row2 :=
      ⟨img2[r], List.getElem?_eq_getElem hr⟩
    have hrow : row1.length = row2.length := by
      have hm := congrArg (fun l => l[r]?) h
      simp only [shape, List.getElem?_map, h1, h2, Option.map_some'] at hm
      exact Option.some.inj hm
    simp only [h1, h2, Option.map_some', Option.some_bind, Option.getD_some]
    rw [List.getElem?_zipWith']
    cases h1c : row1[c]? with
    | none =>
      have h2c : row2[c]? = none := by
        rw [List.getElem?_eq_none_iff] at h1c ⊢
        omega
      simp [h1c, h2c, cellDiff]
    | some a =>
      have hc : c < row2.length := by
        have : c < row1.length := by
          by_contra hcc
          rw [List.getElem?_eq_none_iff.mpr (Nat.le_of_not_lt hcc)] at h1c
          exact Option.noConfusion h1c
        omega
      obtain ⟨b, h2c⟩ : ∃ b, row2[c]? = some b :=
        ⟨row2[c], List.getElem?_eq_getElem hc⟩
      simp [h1c, h2c]

/-! ### Claim theorems for the DifferenceMap component -/

/-- C2: comparing images of differing shape always raises the dimension
mismatch error and produces no partial result; comparing same-shaped images
never raises it and yields the thresholded difference raster. -/
theorem c2_dimension_guard (img1 img2 : List (List Nat)) (t : Nat) :
    (shape img1 ≠ shape img2 →
      find_differences img1 img2 t = Except.error "Images must have the same dimensions") ∧
    (shape img1 = shape img2 →
      find_differences img1 img2 t = Except.ok (thresholded_diff img1 img2 t)) := by
  constructor <;> intro h <;> simp [find_differences, h]

theorem c2_dimension_guard_witness :
    find_differences [[0]] [] 0 = Except.error "Images must have the same dimensions" ∧
    find_differences [[0]] [[0]] 0 = Except.ok (thresholded_diff [[0]] [[0]] 0) :=
  ⟨(c2_dimension_guard [[0]] [] 0).1 (by decide),
   (c2_dimension_guard [[0]] [[0]] 0).2 (by decide)⟩

/-- C3: whenever `find_differences` succeeds, every cell of the returned
raster equals the unsigned absolute difference `d = |img1[p] - img2[p]|` when
`d` exceeds the threshold and `0` otherwise.  (The embedding is pure: the
input images are values and are untouched.) -/
theorem c3_pointwise_formula (img1 img2 : List (List Nat)) (t : Nat)
    (r : List (List Nat)) (h : find_differences img1 img2 t = Except.ok r)
    (p : Nat × Nat) :
    getCell r p =
      if t < Nat.dist (getCell img1 p) (getCell img2 p)
        then Nat.dist (getCell img1 p) (getCell img2 p) else 0 := by
  obtain ⟨hs, hr⟩ := find_differences_ok.mp h
  subst hr
  rw [getCell_thresholded_diff t hs p]
  rfl

theorem c3_pointwise_formula_witness :
    find_differences [[100]] [[40]] 30 = Except.ok [[60]] ∧
    getCell [[60]] (0, 0) =
      if 30 < Nat.dist (getCell [[100]] (0, 0)) (getCell [[40]] (0, 0))
        then Nat.dist (getCell [[100]] (0, 0)) (getCell [[40]] (0, 0)) else 0 :=
  ⟨rfl, c3_pointwise_formula [[100]] [[40]] 30 [[60]] rfl (0, 0)⟩

/-- C6: raising the threshold shrinks the foreground: with `t1 < t2`, every
cell that is non-zero in the raster produced with `t2` is non-zero in the
raster produced with `t1`. -/
theorem c6_threshold_monotone (img1 img2 : List (List Nat)) (t1 t2 : Nat)
    (r1 r2 : List (List Nat)) (h12 : t1 < t2)
    (h1 : find_differences img1 img2 t1 = Except.ok r1)
    (h2 : find_differences img1 img2 t2 = Except.ok r2)
    (p : Nat × Nat) (hp : getCell r2 p ≠ 0) : getCell r1 p ≠ 0 := by
  obtain ⟨hs, hr1⟩ := find_differences_ok.mp h1
  obtain ⟨-, hr2⟩ := find_differences_ok.mp h2
  subst hr1; subst hr2
  rw [getCell_thresholded_diff t2 hs p] at hp
  rw [getCell_thresholded_diff t1 hs p]
  unfold cellDiff at hp ⊢
  by_cases hd : t2 < Nat.dist (getCell img1 p) (getCell img2 p)
  · rw [if_pos (lt_trans h12 hd)]
    rw [if_pos hd] at hp
    exact hp
  · rw [if_neg hd] at hp
    exact absurd rfl hp

theorem c6_threshold_monotone_witness :
    10 < 60 ∧
    find_differences [[100]] [[0]] 10 = Except.ok [[100]] ∧
    find_differences [[100]] [[0]] 60 = Except.ok [[100]] ∧
    getCell [[100]] (0, 0) ≠ 0 :=
  ⟨by decide, rfl, rfl,
   c6_threshold_monotone [[100]] [[0]] 10 60 [[100]] [[100]] (by decide)
     rfl rfl (0, 0) (by decide)⟩

/-- C7: comparing an image with itself yields an all-zero raster for every
threshold, and `find_differences` is symmetric in its two image arguments,
cell-for-cell (including the error case). -/
theorem c7_identity_symmetry (img a b : List (List Nat)) (t : Nat) :
    find_differences img img t = Except.ok (thresholded_diff img img t) ∧
    (∀ p, getCell (thresholded_diff img img t) p = 0) ∧
    find_differences a b t = find_differences b a t := by
  refine ⟨by simp [find_differences], fun p => ?_, ?_⟩
  · rw [getCell_thresholded_diff t rfl p]
    simp [cellDiff]
  · unfold find_differences
    by_cases hs : shape a = shape b
    · rw [if_neg (by simp [hs]), if_neg (by simp [hs.symm])]
      have hcomm : ∀ x y : Nat, cellDiff t x y = cellDiff t y x := by
        intro x y
        simp [cellDiff, Nat.dist_comm]
      have : ∀ rw1 rw2 : List Nat,
          List.zipWith (cellDiff t) rw1 rw2 = List.zipWith (cellDiff t) rw2 rw1 :=
        List.zipWith_comm_of_comm _ hcomm
      unfold thresholded_diff
      rw [List.zipWith_comm_of_comm _ this a b]
    · rw [if_pos hs, if_pos (Ne.symm hs)]

/-! ### Helper lemmas about the connected-component labeling -/

lemma componentFrom_sublist (fg : Nat × Nat → Bool) (cells : List (Nat × Nat))
    (seed : Nat × Nat) : List.Sublist (componentFrom fg cells seed) cells := by
  unfold componentFrom
  rw [Function.iterate_succ_apply']
  exact List.filter_sublist _

lemma mem_iterate_grow_fg {fg : Nat × Nat → Bool} {cells : List (Nat × Nat)}
    {seed : Nat × Nat} (hseed : fg seed = true) :
    ∀ n q, q ∈ (grow fg cells)^[n] [seed] → fg q = true := by
  intro n
  induction n with
  | zero =>
    intro q hq
    simp only [Function.iterate_zero, id_eq, List.mem_singleton] at hq
    exact hq ▸ hseed
  | succ n ih =>
    intro q hq
    rw [Function.iterate_succ_apply'] at hq
    unfold grow at hq
    obtain ⟨-, hcond⟩ := List.mem_filter.mp hq
    rcases Bool.or_eq_true_iff.mp hcond with hmem | hfg
    · exact ih q (of_decide_eq_true hmem)
    · exact (Bool.and_eq_true_iff.mp hfg).1

lemma componentFrom_fg {fg : Nat × Nat → Bool} {cells : List (Nat × Nat)}
    {seed : Nat × Nat} (hseed : fg seed = true) :
    ∀ q ∈ componentFrom fg cells seed, fg q = true :=
  fun q hq => mem_iterate_grow_fg hseed _ q hq

lemma filter_length_mono {α : Type} (l : List α) {p q : α → Bool}
    (h : ∀ a, p a = true → q a = true) :
    (l.filter p).length ≤ (l.filter q).length := by
  induction l with
  | nil => simp
  | cons a l ih =>
    rw [List.filter_cons, List.filter_cons]
    by_cases hp : p a = true
    · rw [if_pos hp, if_pos (h a hp)]
      simpa using ih
    · rw [if_neg hp]
      refine le_trans ih ?_
      by_cases hq : q a = true
      · rw [if_pos hq]; simp
      · rw [if_neg hq]

/-- A duplicate-free selection `comp` of elements of `l`, all satisfying
`pred`, occupies `comp.length` of the slots of `l.filter pred`; the remaining
matching slots are the ones outside `comp`. -/
lemma comp_count_le {l comp : List (Nat × Nat)} {pred : Nat × Nat → Bool}
    (hsub : List.Sublist comp l) (hnd : comp.Nodup) (hpred : ∀ a ∈ comp, pred a = true) :
    comp.length + (l.filter fun a => pred a && decide (a ∉ comp)).length
      ≤ (l.filter pred).length := by
  induction hsub with
  | slnil => simp
  | @cons l₁ l₂ a hsub ih =>
    have hrec := ih hnd hpred
    rw [List.filter_cons, List.filter_cons]
    by_cases hp : pred a = true
    · rw [if_pos hp]
      by_cases hmem : a ∈ l₁
      · rw [if_neg (by simp [hp, hmem])]
        simp only [List.length_cons]
        omega
      · rw [if_pos (by simp [hp, hmem])]
        simp only [List.length_cons]
        omega
    · rw [if_neg hp, if_neg (by simp [hp])]
      exact hrec
  | @cons₂ l₁ l₂ a hsub ih =>
    have hnd' : l₁.Nodup := hnd.of_cons
    have hmem : a ∉ l₁ := (List.nodup_cons.mp hnd).1
    have hpa : pred a = true := hpred a (List.mem_cons_self a l₁)
    have hrec := ih hnd' fun x hx => hpred x (List.mem_cons_of_mem a hx)
    rw [List.filter_cons, List.filter_cons]
    rw [if_neg (by simp [List.mem_cons]), if_pos hpa]
    have hmono : (l₂.filter fun x => pred x && decide (x ∉ a :: l₁)).length
        ≤ (l₂.filter fun x => pred x && decide (x ∉ l₁)).length := by
      refine filter_length_mono l₂ ?_
      intro x hx
      obtain ⟨h1, h2⟩ := Bool.and_eq_true_iff.mp hx
      have := of_decide_eq_true h2
      simp only [List.mem_cons, not_or] at this
      simp [h1, this.2]
    simp only [List.length_cons]
    omega

lemma allCells_nodup (g : List (List Nat)) : (allCells g).Nodup := by
  unfold allCells
  rw [List.nodup_flatMap]
  constructor
  · intro r _
    exact (List.nodup_range _).map fun c1 c2 h => (Prod.mk.injEq _ _ _ _ ▸ h : _ ∧ _).2
  · refine (List.pairwise_lt_range g.length).imp ?_
    intro r1 r2 hlt
    intro x hx1 hx2
    simp only [Function.onFun, List.mem_map, List.mem_range] at hx1 hx2
    obtain ⟨c1, -, rfl⟩ := hx1
    obtain ⟨c2, -, heq⟩ := hx2
    have : r2 = r1 := congrArg Prod.fst heq
    omega

lemma componentsAux_sum_le (fg : Nat × Nat → Bool) (cells : List (Nat × Nat))
    (hnd : cells.Nodup) :
    ∀ todo visited : List (Nat × Nat),
      ((componentsAux fg cells todo visited).map List.length).sum
        ≤ (cells.filter fun p => fg p && decide (p ∉ visited)).length := by
  intro todo
  induction todo with
  | nil =>
    intro visited
    simp [componentsAux]
  | cons p todo ih =>
    intro visited
    rw [componentsAux]
    by_cases hcond : fg p = true ∧ p ∉ visited
    · rw [if_pos hcond]
      simp only [List.map_cons, List.sum_cons]
      set fg' : Nat × Nat → Bool := fun q => fg q && decide (q ∉ visited) with hfg'
      set comp := componentFrom fg' cells p with hcompdef
      have hseed : fg' p = true := by
        simp [hfg', hcond.1, hcond.2]
      have hsub : List.Sublist comp cells := componentFrom_sublist fg' cells p
      have hndc : comp.Nodup := hnd.sublist hsub
      have hpredc : ∀ q ∈ comp, fg' q = true := componentFrom_fg hseed
      have hrest := ih (visited ++ comp)
      have heq : (fun q => fg q && decide (q ∉ visited ++ comp))
          = fun q => fg' q && decide (q ∉ comp) := by
        funext q
        by_cases h1 : q ∈ visited <;> by_cases h2 : q ∈ comp <;>
          simp [hfg', List.mem_append, h1, h2]
      rw [heq] at hrest
      have hkey := comp_count_le hsub hndc hpredc
      omega
    · rw [if_neg hcond]
      exact ih visited

lemma sum_componentAreas_le (g : List (List Nat)) :
    (componentAreas g).sum ≤ foregroundCount g := by
  unfold componentAreas components foregroundCount
  refine le_trans (componentsAux_sum_le (foregroundB g) (allCells g) (allCells_nodup g)
    (allCells g) []) ?_
  refine le_of_eq (congrArg List.length (List.filter_congr ?_))
  intro x _
  simp

/-! ### Claim theorems for the ChangeAnalyzer component -/

/-- C1: for a raster whose labeling yields exactly one connected component,
the component is dropped when its area equals the floor (`num_changes = 0`)
and kept when its area is the floor plus one (`num_changes = 1`): survival
requires area strictly greater than the floor. -/
theorem c1_area_filter_boundary (g : List (List Nat)) (m : Nat) :
    (componentAreas g = [m] → (analyze_changesWith g m).1 = 0) ∧
    (componentAreas g = [m + 1] → (analyze_changesWith g m).1 = 1) := by
  constructor <;> intro h <;> simp [analyze_changesWith, h]

theorem c1_area_filter_boundary_witness :
    componentAreas [[5]] = [1] ∧ (analyze_changesWith [[5]] 1).1 = 0 ∧
    componentAreas [[5, 5]] = [1 + 1] ∧ (analyze_changesWith [[5, 5]] 1).1 = 1 :=
  ⟨by decide, (c1_area_filter_boundary [[5]] 1).1 (by decide),
   by decide, (c1_area_filter_boundary [[5, 5]] 1).2 (by decide)⟩

/-- C4: the spec's end-to-end example: a 4×4 raster that is all zero except a
solid 3×3 foreground block in one corner (area 9) yields, with floor 5, one
change with `change_id = 1` and `pixels = 9`; with floor 10 it yields no
changes. -/
theorem c4_end_to_end :
    analyze_changesWith
        [[255, 255, 255, 0], [255, 255, 255, 0], [255, 255, 255, 0], [0, 0, 0, 0]] 5
      = (1, [⟨1, 9⟩]) ∧
    analyze_changesWith
        [[255, 255, 255, 0], [255, 255, 255, 0], [255, 255, 255, 0], [0, 0, 0, 0]] 10
      = (0, []) :=
  ⟨by decide, by decide⟩

/-- C5: the `change_id`s in the returned list are exactly 1, 2, ...,
`num_changes` in list order, and the `pixels` fields are exactly the areas of
the surviving components in the labeling's raster-scan discovery order. -/
theorem c5_change_id_order (g : List (List Nat)) (m : Nat) :
    ((analyze_changesWith g m).2.map fun cr => cr.change_id)
      = List.range' 1 (analyze_changesWith g m).1 ∧
    ((analyze_changesWith g m).2.map fun cr => cr.pixels)
      = (componentAreas g).filter fun a => decide (m < a) := by
  set sig := (componentAreas g).filter fun a => decide (m < a) with hsig
  constructor
  · show (sig.enum.map fun ia => (⟨ia.1 + 1, ia.2⟩ : ChangeRecord)).map
        (fun cr => cr.change_id) = List.range' 1 sig.length
    rw [List.map_map]
    have h1 : ((fun cr : ChangeRecord => cr.change_id) ∘ fun ia : Nat × Nat =>
        (⟨ia.1 + 1, ia.2⟩ : ChangeRecord)) = (fun n => n + 1) ∘ Prod.fst := rfl
    rw [h1, ← List.map_map, List.enum_map_fst, List.range'_eq_map_range]
    refine List.map_congr_left ?_
    intro x _
    omega
  · show (sig.enum.map fun ia => (⟨ia.1 + 1, ia.2⟩ : ChangeRecord)).map
        (fun cr => cr.pixels) = sig
    rw [List.map_map]
    have h1 : ((fun cr : ChangeRecord => cr.pixels) ∘ fun ia : Nat × Nat =>
        (⟨ia.1 + 1, ia.2⟩ : ChangeRecord)) = Prod.snd := rfl
    rw [h1, List.enum_map_snd]

/-- C8: `num_changes` always equals the length of the returned list, and the
sum of the surviving components' `pixels` never exceeds the raster's total
foreground pixel count. -/
theorem c8_count_consistency (g : List (List Nat)) (m : Nat) :
    (analyze_changesWith g m).1 = (analyze_changesWith g m).2.length ∧
    ((analyze_changesWith g m).2.map fun cr => cr.pixels).sum ≤ foregroundCount g := by
  constructor
  · simp [analyze_changesWith]
  · have hpix : ((analyze_changesWith g m).2.map fun cr => cr.pixels)
        = (componentAreas g).filter fun a => decide (m < a) := by
      show ((((componentAreas g).filter fun a => decide (m < a)).enum.map
          fun ia => (⟨ia.1 + 1, ia.2⟩ : ChangeRecord)).map fun cr => cr.pixels) = _
      rw [List.map_map]
      have h1 : ((fun cr : ChangeRecord => cr.pixels) ∘ fun ia : Nat × Nat =>
          (⟨ia.1 + 1, ia.2⟩ : ChangeRecord)) = Prod.snd := rfl
      rw [h1, List.enum_map_snd]
    rw [hpix]
    refine le_trans ?_ (sum_componentAreas_le g)
    exact List.Sublist.sum_le_sum (List.filter_sublist _) fun a _ => Nat.zero_le a

/-- C9: `analyze_changes` is a pure function: equal rasters and equal floors
give bit-identical outputs, and the source's entry point is exactly the
parametric analyzer at the named constant `min_area = 50`. -/
theorem c9_deterministic (g1 g2 : List (List Nat)) (m1 m2 : Nat)
    (hg : g1 = g2) (hm : m1 = m2) :
    analyze_changesWith g1 m1 = analyze_changesWith g2 m2 ∧
    analyze_changes g1 = analyze_changesWith g1 min_area ∧ min_area = 50 := by
  subst hg; subst hm
  exact ⟨rfl, rfl, rfl⟩

theorem c9_deterministic_witness :
    analyze_changesWith [[5]] 0 = analyze_changesWith [[5]] 0 ∧
    analyze_changes [[5]] = analyze_changesWith [[5]] min_area ∧ min_area = 50 :=
  c9_deterministic [[5]] [[5]] 0 0 rfl rfl

/-! ### Helper lemmas for support-only dependence -/

lemma getD_row_length (g : List (List Nat)) (r : Nat) :
    (g.getD r []).length = (shape g).getD r 0 := by
  simp only [shape, List.getD_eq_getElem?_getD, List.getElem?_map]
  cases g[r]? <;> simp

lemma allCells_shape_eq {g1 g2 : List (List Nat)} (h : shape g1 = shape g2) :
    allCells g1 = allCells g2 := by
  unfold allCells
  rw [length_eq_of_shape h]
  refine congrArg _ (funext fun r => ?_)
  rw [getD_row_length, getD_row_length, h]

lemma mem_allCells {g : List (List Nat)} {p : Nat × Nat} :
    p ∈ allCells g ↔ p.1 < g.length ∧ p.2 < (g.getD p.1 []).length := by
  obtain ⟨r, c⟩ := p
  unfold allCells
  simp only [List.mem_flatMap, List.mem_range, List.mem_map]
  constructor
  · rintro ⟨r', hr', c', hc', heq⟩
    obtain ⟨rfl, rfl⟩ := Prod.mk.injEq .. ▸ heq
    exact ⟨hr', hc'⟩
  · rintro ⟨h1, h2⟩
    exact ⟨r, h1, c, h2, rfl⟩

lemma getCell_eq_zero_of_not_mem {g : List (List Nat)} {p : Nat × Nat}
    (hp : p ∉ allCells g) : getCell g p = 0 := by
  rw [mem_allCells] at hp
  push_neg at hp
  unfold getCell
  by_cases h1 : p.1 < g.length
  · exact List.getD_eq_default _ _ (hp h1)
  · rw [List.getD_eq_default _ _ (Nat.le_of_not_lt h1)]
    simp

/-- C10: `analyze_changes` depends only on the support of the raster: two
same-shaped rasters whose cells vanish at exactly the same positions (for
example, one the binarization of the other) produce identical
`(num_changes, changes)` outputs for every floor. -/
theorem c10_support_only (g1 g2 : List (List Nat)) (m : Nat)
    (hs : shape g1 = shape g2)
    (hsupp : ∀ p ∈ allCells g1, (getCell g1 p = 0 ↔ getCell g2 p = 0)) :
    analyze_changesWith g1 m = analyze_changesWith g2 m := by
  have hcells := allCells_shape_eq hs
  have hfg : foregroundB g1 = foregroundB g2 := by
    funext p
    by_cases hp : p ∈ allCells g1
    · simp only [foregroundB]
      rw [decide_eq_decide]
      exact not_congr (hsupp p hp)
    · have z1 := getCell_eq_zero_of_not_mem hp
      have z2 := getCell_eq_zero_of_not_mem (hcells ▸ hp)
      simp [foregroundB, z1, z2]
  unfold analyze_changesWith componentAreas components
  rw [hfg, hcells]

theorem c10_support_only_witness :
    shape [[7, 7]] = shape [[1, 3]] ∧
    (∀ p ∈ allCells [[7, 7]], (getCell [[7, 7]] p = 0 ↔ getCell [[1, 3]] p = 0)) ∧
    analyze_changesWith [[7, 7]] 1 = analyze_changesWith [[1, 3]] 1 :=
  ⟨by decide, by decide, c10_support_only [[7, 7]] [[1, 3]] 1 (by decide) (by decide)⟩

end ImageComp
